import Mathlib

/-!
Verification of the attendance-reconciliation core of `src/main.py`
(KServe-FMS/Attendance-Reco).

The embedding models, from the source:
- `standardizeLabel`  — `standardize_column_names` (per column label);
- `normalizeColumns`  — the column-renaming part of `process_dataframe`
  (standardize, positional overwrite of the first two labels, the
  `Status (...)` → `YYYY-MM-DD` rename);
- `process_dataframe` — the full pipeline producing an indexed table
  (`set_index` on `Employee Code`, `astype(str)` on non-name columns);
- `compare_attendance` — the reconciliation engine.

Conventions of the shallow embedding:
- A column label is a `List Char` (`Label`); `L s` injects a string literal.
- A cell is `Cell.str`, `Cell.num` (integer cells, standing for the numeric
  cells pandas yields before `astype(str)`), or `Cell.null` (NaN / missing).
  Python `==` on cells is `pyEq`; NaN compares unequal to itself.
- `pd.to_datetime(x, format=f, errors=raise)` for the two fixed formats is
  modelled by `parseDMY` / `parseDBY`, including the calendar validation and
  the pandas `Timestamp` range check (out-of-range raises a `ValueError`
  subclass, which the source catches).
- `.at` lookups are modelled by first-occurrence lookup (`atCell`,
  `lookupRow`); the tables the claims quantify over have unique labels and,
  where a claim needs it, unique keys, matching the pandas requirement for
  scalar `.at` access.
- Raising is modelled by `Except`/`Option`: `process_dataframe` returns
  `none` where the Python code raises (`IndexError` on fewer than two
  columns, `AttributeError` on a surviving non-string label), and
  `compare_attendance` returns `Except.error` where the Python loop raises
  `KeyError` (missing `Employee Name` column on a key found in the backend).
-/

namespace AttReco

/-- Characters of a string literal; labels are char lists. -/
def L (s : String) : List Char := s.data

abbrev Label := List Char

/-- The ten decimal digit characters. -/
def digitChars : List Char := ['0', '1', '2', '3', '4', '5', '6', '7', '8', '9']

/-- Decimal digit character of `n % 10`. -/
def digitChar (n : Nat) : Char :=
  match n % 10 with
  | 0 => '0' | 1 => '1' | 2 => '2' | 3 => '3' | 4 => '4'
  | 5 => '5' | 6 => '6' | 7 => '7' | 8 => '8' | _ => '9'

/-- Numeric value of a digit character. -/
def digitVal (c : Char) : Nat := c.toNat - 48

/-- ASCII lower-casing of one character (models `str.lower` on the
labels the program handles). -/
def lowerChar (c : Char) : Char :=
  if 65 ≤ c.toNat ∧ c.toNat ≤ 90 then Char.ofNat (c.toNat + 32) else c

/-- Lower-casing of a label. -/
def lowerCL (l : Label) : Label := l.map lowerChar

/-- `hasPrefixCL p l` holds when `p` is an initial segment of `l`
(models `str.startswith`). -/
def hasPrefixCL : List Char → List Char → Bool
  | [], _ => true
  | _ :: _, [] => false
  | p :: ps, h :: hs => decide (p = h) && hasPrefixCL ps hs

/-- `containsSub hay pat` holds when `pat` occurs contiguously in `hay`
(models Python `pat in hay`). -/
def containsSub : List Char → List Char → Bool
  | hay, pat =>
    hasPrefixCL pat hay ||
      match hay with
      | [] => false
      | _ :: hs => containsSub hs pat

/-- Split on the dash character (models `str.split` with a dash,
used to model the fixed-format date parse). -/
def splitDash : List Char → List (List Char)
  | [] => [[]]
  | c :: cs =>
    if c = '-' then [] :: splitDash cs
    else
      match splitDash cs with
      | [] => [[c]]
      | p :: ps => (c :: p) :: ps

/-- Every character is a decimal digit. -/
def allDigits (l : List Char) : Bool := l.all (fun c => c ∈ digitChars)

/-- Decimal value of a digit list. -/
def toNatD (l : List Char) : Nat := l.foldl (fun a c => a * 10 + digitVal c) 0

/-- A calendar date (pandas `Timestamp` at midnight). -/
structure Date where
  year : Nat
  month : Nat
  day : Nat
deriving DecidableEq, Repr

/-- Gregorian leap year. -/
def isLeap (y : Nat) : Bool := y % 4 = 0 && (y % 100 ≠ 0 || y % 400 = 0)

/-- Days in a month. -/
def daysInMonth (y m : Nat) : Nat :=
  if m = 2 then (if isLeap y then 29 else 28)
  else if m = 4 ∨ m = 6 ∨ m = 9 ∨ m = 11 then 30
  else 31

/-- The pandas `Timestamp` range restricted to whole days:
`Timestamp.min` is inside 1677-09-21, so the first representable
midnight is 1677-09-22; the last is 2262-04-11. -/
def tsInBounds (y m d : Nat) : Bool :=
  16770922 ≤ y * 10000 + m * 100 + d && y * 10000 + m * 100 + d ≤ 22620411

/-- Calendar/range validation shared by the date parsers; `none` models
the `ValueError` (or its `OutOfBoundsDatetime` subclass) that
`pd.to_datetime(..., errors=raise)` raises. -/
def mkValidDate (y m d : Nat) : Option Date :=
  if 1 ≤ m ∧ m ≤ 12 ∧ 1 ≤ d ∧ d ≤ daysInMonth y m ∧ tsInBounds y m d then
    some ⟨y, m, d⟩
  else none

/-- Strict parse with format `%d-%m-%Y` (`DD-MM-YYYY`, one- or two-digit
day and month, exactly four-digit year, full-string match). -/
def parseDMY (s : List Char) : Option Date :=
  match splitDash s with
  | [p0, p1, p2] =>
    if allDigits p0 && 1 ≤ p0.length && p0.length ≤ 2 &&
       allDigits p1 && 1 ≤ p1.length && p1.length ≤ 2 &&
       allDigits p2 && p2.length = 4 then
      mkValidDate (toNatD p2) (toNatD p1) (toNatD p0)
    else none
  | _ => none

/-- Lower-cased three-letter month abbreviations with their numbers. -/
def monthTable : List (List Char × Nat) :=
  [(L "jan", 1), (L "feb", 2), (L "mar", 3), (L "apr", 4),
   (L "may", 5), (L "jun", 6), (L "jul", 7), (L "aug", 8),
   (L "sep", 9), (L "oct", 10), (L "nov", 11), (L "dec", 12)]

/-- Month number of a lower-cased abbreviation (`%b` is matched
case-insensitively by `strptime`). -/
def monthOfAbbrev (l : List Char) : Option Nat :=
  (monthTable.find? (fun p => p.1 = l)).map Prod.snd

/-- Two-digit-year pivot of `%y`: 00–68 map to 2000–2068, 69–99 to
1969–1999. -/
def yearOfYY (yy : Nat) : Nat := if yy ≤ 68 then 2000 + yy else 1900 + yy

/-- Strict parse with format `%d-%b-%y` (`DD-Mon-YY`, abbreviated month,
exactly two-digit year, full-string match). -/
def parseDBY (s : List Char) : Option Date :=
  match splitDash s with
  | [p0, p1, p2] =>
    if allDigits p0 && 1 ≤ p0.length && p0.length ≤ 2 &&
       allDigits p2 && p2.length = 2 then
      match monthOfAbbrev (lowerCL p1) with
      | some m => mkValidDate (yearOfYY (toNatD p2)) m (toNatD p0)
      | none => none
    else none
  | _ => none

/-- Two-digit zero-padded decimal (`%d`, `%m`, `%y` in `strftime`). -/
def pad2 (n : Nat) : List Char := [digitChar (n / 10), digitChar n]

/-- Four-digit zero-padded decimal (`%Y` in `strftime`). -/
def pad4 (n : Nat) : List Char :=
  [digitChar (n / 1000), digitChar (n / 100), digitChar (n / 10), digitChar n]

/-- Month abbreviation (`%b` in `strftime`). -/
def monAbbrev (m : Nat) : List Char :=
  match m with
  | 1 => L "Jan" | 2 => L "Feb" | 3 => L "Mar" | 4 => L "Apr"
  | 5 => L "May" | 6 => L "Jun" | 7 => L "Jul" | 8 => L "Aug"
  | 9 => L "Sep" | 10 => L "Oct" | 11 => L "Nov" | 12 => L "Dec"
  | _ => []

/-- `strftime` with the pattern used for display dates: `%d-%b-%y`. -/
def fmtDBY (d : Date) : List Char :=
  pad2 d.day ++ L "-" ++ monAbbrev d.month ++ L "-" ++ pad2 d.year

/-- `strftime` with the canonical pattern `%Y-%m-%d`. -/
def fmtISO (d : Date) : List Char :=
  pad4 d.year ++ L "-" ++ pad2 d.month ++ L "-" ++ pad2 d.day

/-- `strftime` with the intermediate pattern used by the normalizer. -/
def fmtStatus (d : Date) : List Char := L "Status (" ++ fmtDBY d ++ L ")"

/-- Strict parse of the canonical form `YYYY-MM-DD`. This stands for the
flexible `pd.to_datetime(label)` call used for display formatting, on the
canonical labels normalization produces (non-date labels of the tables the
claims quantify over fail the flexible parse as well). -/
def parseISO (s : List Char) : Option Date :=
  match splitDash s with
  | [p0, p1, p2] =>
    if allDigits p0 && p0.length = 4 &&
       allDigits p1 && 1 ≤ p1.length && p1.length ≤ 2 &&
       allDigits p2 && 1 ≤ p2.length && p2.length ≤ 2 then
      mkValidDate (toNatD p0) (toNatD p1) (toNatD p2)
    else none
  | _ => none

/-- An incoming column label: a string header, a datetime-typed header
(`pd.read_excel` yields those for date cells in the header row), or any
other non-string header (`other`, e.g. an integer header), which the
standardizer keeps untouched. -/
inductive RawLabel where
  | str (s : Label)
  | date (d : Date)
  | other (tag : Nat)
deriving DecidableEq, Repr

/-- Whether a raw label is neither a string nor a datetime. -/
def RawLabel.isOther : RawLabel → Bool
  | RawLabel.other _ => true
  | _ => false

/-- The string payload of a raw label (the normalizer only reads it after
ruling out `other`). -/
def RawLabel.strOf : RawLabel → Label
  | RawLabel.str s => s
  | _ => []

/-- One step of `standardize_column_names`: substring match on `code` then
`name` (case-insensitive), then the two fixed-format date parses in order,
else the label is kept. Datetime labels are formatted directly; any other
non-string label is kept as is. -/
def standardizeLabel : RawLabel → RawLabel
  | RawLabel.str s =>
    if containsSub (lowerCL s) (L "code") then RawLabel.str (L "Employee Code")
    else if containsSub (lowerCL s) (L "name") then RawLabel.str (L "Employee Name")
    else
      match parseDMY s with
      | some d => RawLabel.str (fmtStatus d)
      | none =>
        match parseDBY s with
        | some d => RawLabel.str (fmtStatus d)
        | none => RawLabel.str s
  | RawLabel.date d => RawLabel.str (fmtStatus d)
  | RawLabel.other t => RawLabel.other t

/-- The unconditional positional overwrite
`df.columns.values[0] = Employee Code; df.columns.values[1] = Employee Name`.
With fewer than two columns the Python code raises `IndexError`; the caller
(`normalizeColumns`) guards the length. -/
def forceFirstTwo (ls : List RawLabel) : List RawLabel :=
  match ls with
  | _ :: _ :: rest =>
    RawLabel.str (L "Employee Code") :: RawLabel.str (L "Employee Name") :: rest
  | l => l

/-- The text between the first opening parenthesis and the next
parenthesis, modelling `col.split` on the opening parenthesis, item 1,
then `split` on the closing one, item 0; `none` models the `IndexError`
when the label has no opening parenthesis. -/
def innerParen : List Char → Option (List Char)
  | [] => none
  | c :: cs =>
    if c = '(' then some (cs.takeWhile (fun x => x ≠ '(' ∧ x ≠ ')'))
    else innerParen cs

/-- The `Status (...)` → `YYYY-MM-DD` rename of `process_dataframe`: a
label with the literal `Status` marker at the start has its parenthesised
text parsed as `DD-Mon-YY`; on success the label becomes canonical
`YYYY-MM-DD`, and on `IndexError`/`ValueError` the label is kept (the
source logs a warning). -/
def statusRenameLabel (l : Label) : Label :=
  if hasPrefixCL (L "Status") l then
    match innerParen l with
    | some inner =>
      match parseDBY inner with
      | some d => fmtISO d
      | none => l
    | none => l
  else l

/-- The column-renaming part of `process_dataframe`: standardize each
label, overwrite the first two positions, then apply the `Status` rename.
`none` models a raised exception: `IndexError` when the table has fewer
than two columns, and `AttributeError` when a non-string label survives
(the `startswith` scan calls a string method on every remaining label). -/
def normalizeColumns (ls : List RawLabel) : Option (List Label) :=
  if ls.length < 2 then none
  else
    let forced := forceFirstTwo (ls.map standardizeLabel)
    if forced.any RawLabel.isOther then none
    else some (forced.map (fun rl => statusRenameLabel rl.strOf))

/-- A cell value: a string, an integer (standing for the numeric cells
pandas yields before `astype(str)`), or missing (NaN). -/
inductive Cell where
  | str (s : Label)
  | num (z : Int)
  | null
deriving DecidableEq, Repr

/-- Python `==` on cells: strings and numbers compare by value, values of
different kinds compare unequal, and NaN is unequal to everything,
itself included. -/
def pyEq : Cell → Cell → Bool
  | Cell.str a, Cell.str b => decide (a = b)
  | Cell.num a, Cell.num b => decide (a = b)
  | _, _ => false

/-- `pd.isna`. -/
def isNa : Cell → Bool
  | Cell.null => true
  | _ => false

/-- The emptiness test of the engine: literal `nan` or missing. -/
def isEmptyCell (v : Cell) : Bool := pyEq v (Cell.str (L "nan")) || isNa v

/-- `astype(str)` on one cell: numbers print, NaN becomes the literal
string `nan`. -/
def cellToStr : Cell → Cell
  | Cell.str s => Cell.str s
  | Cell.num z => Cell.str (L (toString z))
  | Cell.null => Cell.str (L "nan")

/-- Whether a cell is a string cell. -/
def isStrCell : Cell → Bool
  | Cell.str _ => true
  | _ => false

/-- A raw table: header labels plus rows of cells aligned with the
header (the loader guarantees equal lengths). -/
structure RawTable where
  cols : List RawLabel
  rows : List (List Cell)
deriving DecidableEq, Repr

/-- The output of `process_dataframe`: canonical column labels (the
identity column has been moved to the index and is no longer listed) and
one `(key, cells)` pair per input row. -/
structure IndexedTable where
  cols : List Label
  rows : List (Cell × List Cell)
deriving DecidableEq, Repr

/-- Label-based scalar access into one row (`df.at` on a given row):
the first column with the requested label selects the cell. The default
is never reached on the well-formed tables the engine receives, since
every lookup is guarded by column membership. -/
def atCell (cols : List Label) (vals : List Cell) (c : Label) : Cell :=
  match cols.indexOf? c with
  | some i => vals.getD i Cell.null
  | none => Cell.null

/-- First row with the given key (`df.at` row access on a keyed frame). -/
def lookupRow (rows : List (Cell × List Cell)) (k : Cell) : Option (List Cell) :=
  match rows with
  | [] => none
  | (k2, v) :: rest => if k2 = k then some v else lookupRow rest k

/-- Stringify every cell of a row except those under the `Employee Name`
label (the `astype(str)` loop of `process_dataframe`, which runs after
`set_index` and therefore never touches the index values). -/
def stringifyRow (cols : List Label) (vals : List Cell) : List Cell :=
  List.zipWith (fun c v => if c = L "Employee Name" then v else cellToStr v) cols vals

/-- `process_dataframe`: normalize the columns, move the first column
(now labelled `Employee Code`) to the index, stringify every remaining
non-name cell. `none` models the exceptions described at
`normalizeColumns`. Note the index values are the raw first cells of each
row, untouched by the stringify loop, and that rows with equal keys are
all kept (`set_index` never rejects duplicates). -/
def process_dataframe (t : RawTable) : Option IndexedTable :=
  (normalizeColumns t.cols).map (fun allCols =>
    let cols := allCols.tail
    { cols := cols
      rows := t.rows.map (fun r => (r.headD Cell.null, stringifyRow cols r.tail)) })

/-- Display-date reformat of the engine: a canonical `YYYY-MM-DD` label
prints back as `DD-Mon-YY`; any other label is used unchanged (the bare
`except` swallows the parse failure). -/
def displayDate (date : Label) : Label :=
  match parseISO date with
  | some d => fmtDBY d
  | none => date

/-- Display of a value in a mismatch row: the literal `nan` prints as the
empty string, anything else (missing included) prints as itself. -/
def dispNonNan (v : Cell) : Cell :=
  if pyEq v (Cell.str (L "nan")) then Cell.str [] else v

/-- One comparison record (`Yes`/`No` mismatch modelled as `Bool`). -/
structure Record where
  empId : Cell
  empName : Cell
  date : Label
  manual : Cell
  qandle : Cell
  mismatch : Bool
deriving DecidableEq, Repr

/-- The reference-side value for a `(key, date)` pair: the backend cell
when the date column exists there, the sentinel `N/A` otherwise. -/
def refValue (backend : IndexedTable) (empId : Cell) (date : Label) : Cell :=
  if date ∈ backend.cols then
    atCell backend.cols ((lookupRow backend.rows empId).getD []) date
  else Cell.str (L "N/A")

/-- The record built for a submission key found in the backend: the
three-way branch of the engine (both sides empty / unequal / equal). -/
def mkFoundRecord (backend new : IndexedTable) (empId : Cell) (vals : List Cell)
    (empName : Cell) (date : Label) : Record :=
  let s := atCell new.cols vals date
  let r := refValue backend empId date
  if isEmptyCell s && isEmptyCell r then
    { empId := empId, empName := empName, date := displayDate date,
      manual := Cell.str [], qandle := Cell.str [], mismatch := false }
  else if !(pyEq s r) then
    { empId := empId, empName := empName, date := displayDate date,
      manual := dispNonNan s, qandle := dispNonNan r, mismatch := true }
  else
    { empId := empId, empName := empName, date := displayDate date,
      manual := dispNonNan s, qandle := dispNonNan r, mismatch := false }

/-- The record built for a submission key absent from the backend:
unconditional mismatch with the fixed sentinel reference value. -/
def mkMissingRecord (new : IndexedTable) (empId : Cell) (vals : List Cell)
    (empName : Cell) (date : Label) : Record :=
  let s := atCell new.cols vals date
  { empId := empId, empName := empName, date := displayDate date,
    manual := if !(pyEq s (Cell.str (L "nan")) || isNa s) then s else Cell.str [],
    qandle := Cell.str (L "Data Not Found in Qandle"),
    mismatch := true }

/-- The records the engine emits for one submission row: one per column
other than `Employee Name`, in column order. A key found in the backend
requires the name column (`.at` raises `KeyError` without it); a key
absent from the backend falls back to the sentinel `N/A` name. -/
def rowRecords (backend new : IndexedTable) (p : Cell × List Cell) :
    Except String (List Record) :=
  if p.1 ∈ backend.rows.map Prod.fst then
    if (L "Employee Name") ∈ new.cols then
      let empName := atCell new.cols p.2 (L "Employee Name")
      Except.ok ((new.cols.filter (fun c => c ≠ L "Employee Name")).map
        (fun date => mkFoundRecord backend new p.1 p.2 empName date))
    else Except.error "KeyError"
  else
    let empName :=
      if (L "Employee Name") ∈ new.cols then atCell new.cols p.2 (L "Employee Name")
      else Cell.str (L "N/A")
    Except.ok ((new.cols.filter (fun c => c ≠ L "Employee Name")).map
      (fun date => mkMissingRecord new p.1 p.2 empName date))

/-- Row-by-row traversal of the engine; the first raising row aborts the
whole run, as the Python loop does. -/
def compareRows (backend new : IndexedTable) :
    List (Cell × List Cell) → Except String (List Record)
  | [] => Except.ok []
  | p :: ps =>
    match rowRecords backend new p with
    | Except.error e => Except.error e
    | Except.ok rs =>
      match compareRows backend new ps with
      | Except.error e => Except.error e
      | Except.ok rest => Except.ok (rs ++ rest)

/-- `compare_attendance`: iterate the submission rows in order. -/
def compare_attendance (backend new : IndexedTable) : Except String (List Record) :=
  compareRows backend new new.rows

/-- Modelled from the spec: a Status column is identified by the literal
`Status` marker at the start of the label or by an already-canonical date
form. This is the spec-side notion used to check the record-count claim
against the engine. -/
def isStatusColumn (c : Label) : Bool :=
  hasPrefixCL (L "Status") c || (parseISO c).isSome

/-- Modelled from the spec: the Status columns of a table. -/
def statusColumns (t : IndexedTable) : List Label :=
  t.cols.filter (fun c => isStatusColumn c)

/-- An empty backend table. -/
def exBackendEmpty : IndexedTable := { cols := [], rows := [] }

/-- A submission with one date column and an inert `Department` column. -/
def exSubInert : IndexedTable :=
  { cols := [L "Employee Name", L "Department"],
    rows := [(Cell.str (L "E1"), [Cell.str (L "Bob"), Cell.str (L "X")])] }

/-- A submission with employee `E2`, unknown to the empty backend. -/
def exSubE2 : IndexedTable :=
  { cols := [L "Employee Name", L "2024-01-05"],
    rows := [(Cell.str (L "E2"), [Cell.str (L "Bob"), Cell.str (L "P")])] }

/-- A raw table with two rows sharing the identity value `E3`. -/
def exRawDupE3 : RawTable :=
  { cols := [RawLabel.str (L "Emp Code"), RawLabel.str (L "Emp Name"),
             RawLabel.str (L "05-01-2024")],
    rows := [[Cell.str (L "E3"), Cell.str (L "A"), Cell.str (L "P")],
             [Cell.str (L "E3"), Cell.str (L "B"), Cell.str (L "Q")]] }

/-- A raw table whose identity values are numeric. -/
def exRawNumKey : RawTable :=
  { cols := [RawLabel.str (L "Emp Code"), RawLabel.str (L "Emp Name"),
             RawLabel.str (L "05-01-2024")],
    rows := [[Cell.num 7, Cell.str (L "Bob"), Cell.str (L "P")]] }

/-- A backend lacking the `Employee Name` column. -/
def exBackendNoName : IndexedTable :=
  { cols := [L "2024-01-05"],
    rows := [(Cell.str (L "E1"), [Cell.str (L "P")])] }

/-- A well-formed submission holding employee `E1`. -/
def exSubE1 : IndexedTable :=
  { cols := [L "Employee Name", L "2024-01-05"],
    rows := [(Cell.str (L "E1"), [Cell.str (L "Bob"), Cell.str (L "P")])] }

/-- A well-formed table with two distinct keys, used to reconcile a table
against itself. -/
def exSelf : IndexedTable :=
  { cols := [L "Employee Name", L "2024-01-05", L "2024-01-06"],
    rows := [(Cell.str (L "E1"), [Cell.str (L "Bob"), Cell.str (L "P"), Cell.str (L "nan")]),
             (Cell.str (L "E2"), [Cell.str (L "Ann"), Cell.str (L "A"), Cell.str (L "P")])] }

/-- A raw header list with the code header in third position. -/
def exLsLateCode : List RawLabel :=
  [RawLabel.str (L "ID"), RawLabel.str (L "Full Name"), RawLabel.str (L "Emp Code"),
   RawLabel.str (L "05-01-2024")]

/-- The record the engine emits for `E2` against the empty backend. -/
def exRecE2 : Record :=
  { empId := Cell.str (L "E2"), empName := Cell.str (L "Bob"),
    date := L "05-Jan-24", manual := Cell.str (L "P"),
    qandle := Cell.str (L "Data Not Found in Qandle"), mismatch := true }

/-- The indexed table `process_dataframe` produces from `exRawNumKey`. -/
def exNumKeyIT : IndexedTable :=
  { cols := [L "Employee Name", L "2024-01-05"],
    rows := [(Cell.num 7, [Cell.str (L "Bob"), Cell.str (L "P")])] }

/-- The first record of reconciling `exSelf` against itself. -/
def exSelfRec1 : Record :=
  { empId := Cell.str (L "E1"), empName := Cell.str (L "Bob"),
    date := L "05-Jan-24", manual := Cell.str (L "P"),
    qandle := Cell.str (L "P"), mismatch := false }

/-! ### Helper lemmas -/

theorem isStrCell_cellToStr (v : Cell) : isStrCell (cellToStr v) = true := by
  cases v <;> rfl

theorem process_dataframe_some (t : RawTable) (it : IndexedTable)
    (h : process_dataframe t = some it) :
    ∃ allCols, normalizeColumns t.cols = some allCols ∧ it.cols = allCols.tail ∧
      it.rows = t.rows.map
        (fun r => (r.headD Cell.null, stringifyRow allCols.tail r.tail)) := by
  cases hn : normalizeColumns t.cols with
  | none => simp [process_dataframe, hn] at h
  | some allCols =>
    refine ⟨allCols, rfl, ?_, ?_⟩ <;>
      · simp [process_dataframe, hn] at h
        simp [← h]

theorem lookupRow_nodup (rows : List (Cell × List Cell)) (k : Cell) (v : List Cell)
    (hnd : (rows.map Prod.fst).Nodup) (hm : (k, v) ∈ rows) :
    lookupRow rows k = some v := by
  induction rows with
  | nil => simp at hm
  | cons p rest ih =>
    obtain ⟨k2, v2⟩ := p
    simp only [List.map_cons, List.nodup_cons] at hnd
    rcases List.mem_cons.mp hm with heq | hmem
    · injection heq with hk hv
      subst hk; subst hv
      simp [lookupRow]
    · have hk2 : k2 ≠ k := by
        intro hkk
        subst hkk
        exact hnd.1 (List.mem_map.mpr ⟨(k2, v), hmem, rfl⟩)
      simp [lookupRow, hk2]
      exact ih hnd.2 hmem

theorem mismatch_same_value (backend new : IndexedTable) (empId : Cell)
    (vals : List Cell) (empName : Cell) (date : Label)
    (h : refValue backend empId date = atCell new.cols vals date) :
    (mkFoundRecord backend new empId vals empName date).mismatch = false := by
  simp only [mkFoundRecord]
  rw [h]
  generalize atCell new.cols vals date = s
  by_cases he : isEmptyCell s = true
  · simp [he]
  · have hpy : pyEq s s = true := by
      cases s with
      | str a => simp [pyEq]
      | num z => simp [pyEq]
      | null => exact absurd (by rfl : isEmptyCell Cell.null = true) he
    simp [he, hpy]

/-! ### Claim theorems -/

/-- C1: for a `(key, date)` pair handled by the found-in-backend branch,
the mismatch flag is false exactly when both the submission value and the
reference value are empty (literal `nan` or missing), or when the two
values compare equal; it is true in every other case. -/
theorem C1_mismatch_rule (backend new : IndexedTable) (empId : Cell)
    (vals : List Cell) (empName : Cell) (date : Label) :
    (mkFoundRecord backend new empId vals empName date).mismatch = false ↔
      ((isEmptyCell (atCell new.cols vals date) = true ∧
        isEmptyCell (refValue backend empId date) = true) ∨
       pyEq (atCell new.cols vals date) (refValue backend empId date) = true) := by
  simp only [mkFoundRecord]
  generalize atCell new.cols vals date = s
  generalize refValue backend empId date = r
  cases hse : isEmptyCell s <;> cases hsr : isEmptyCell r <;>
    cases hpq : pyEq s r <;> simp [hse, hsr, hpq]

/-- C9: when both sides of a `(key, date)` pair handled by the
found-in-backend branch are empty, the record has no mismatch and both
displayed values are the empty string, never the literal `nan`. -/
theorem C9_both_empty_display (backend new : IndexedTable) (empId : Cell)
    (vals : List Cell) (empName : Cell) (date : Label)
    (h1 : isEmptyCell (atCell new.cols vals date) = true)
    (h2 : isEmptyCell (refValue backend empId date) = true) :
    (mkFoundRecord backend new empId vals empName date).mismatch = false ∧
    (mkFoundRecord backend new empId vals empName date).manual = Cell.str (L "") ∧
    (mkFoundRecord backend new empId vals empName date).qandle = Cell.str (L "") := by
  unfold mkFoundRecord
  simp [h1, h2, L]

/-- Witness for C9 at a concrete pair whose two sides are both the
literal `nan`. -/
theorem C9_both_empty_display_witness :
    isEmptyCell (atCell exSelf.cols
        [Cell.str (L "Bob"), Cell.str (L "P"), Cell.str (L "nan")] (L "2024-01-06")) = true ∧
    (mkFoundRecord exSelf exSelf (Cell.str (L "E1"))
        [Cell.str (L "Bob"), Cell.str (L "P"), Cell.str (L "nan")]
        (Cell.str (L "Bob")) (L "2024-01-06")).mismatch = false ∧
    (mkFoundRecord exSelf exSelf (Cell.str (L "E1"))
        [Cell.str (L "Bob"), Cell.str (L "P"), Cell.str (L "nan")]
        (Cell.str (L "Bob")) (L "2024-01-06")).manual = Cell.str (L "") := by
  refine ⟨by decide, ?_, ?_⟩
  · exact (C9_both_empty_display exSelf exSelf (Cell.str (L "E1"))
      [Cell.str (L "Bob"), Cell.str (L "P"), Cell.str (L "nan")]
      (Cell.str (L "Bob")) (L "2024-01-06") (by decide) (by decide)).1
  · exact (C9_both_empty_display exSelf exSelf (Cell.str (L "E1"))
      [Cell.str (L "Bob"), Cell.str (L "P"), Cell.str (L "nan")]
      (Cell.str (L "Bob")) (L "2024-01-06") (by decide) (by decide)).2.1

theorem rowRecords_length (backend new : IndexedTable) (p : Cell × List Cell)
    (rs : List Record) (h : rowRecords backend new p = Except.ok rs) :
    rs.length = (new.cols.filter (fun c => c ≠ L "Employee Name")).length := by
  unfold rowRecords at h
  by_cases hk : p.1 ∈ backend.rows.map Prod.fst
  · rw [if_pos hk] at h
    by_cases hn : (L "Employee Name") ∈ new.cols
    · rw [if_pos hn] at h
      injection h with h
      rw [← h, List.length_map]
    · rw [if_neg hn] at h
      exact absurd h (by simp)
  · rw [if_neg hk] at h
    injection h with h
    rw [← h, List.length_map]

theorem compareRows_length (backend new : IndexedTable)
    (l : List (Cell × List Cell)) (rs : List Record)
    (h : compareRows backend new l = Except.ok rs) :
    rs.length = l.length * (new.cols.filter (fun c => c ≠ L "Employee Name")).length := by
  induction l generalizing rs with
  | nil =>
    unfold compareRows at h
    injection h with h
    simp [← h]
  | cons p ps ih =>
    unfold compareRows at h
    cases h1 : rowRecords backend new p with
    | error e => rw [h1] at h; exact absurd h (by simp)
    | ok rs1 =>
      rw [h1] at h
      cases h2 : compareRows backend new ps with
      | error e => rw [h2] at h; exact absurd h (by simp)
      | ok rest =>
        rw [h2] at h
        injection h with h
        rw [← h, List.length_append, rowRecords_length backend new p rs1 h1,
          ih rest h2, List.length_cons, Nat.succ_mul, Nat.add_comm]

/-- C2 counterexample: against an empty backend, a submission with one
row, a name column and one inert non-date column yields one record, while
the claimed count, rows times Status columns, is zero. -/
theorem C2_counterexample :
    (compare_attendance exBackendEmpty exSubInert).toOption.map List.length = some 1 ∧
    exSubInert.rows.length * (statusColumns exSubInert).length = 0 := by
  exact ⟨by decide, by decide⟩

/-- C2 amended: whenever the engine completes without raising, it emits
exactly one record per submission row per submission column other than
`Employee Name` — counting inert non-date columns as well as date
columns. -/
theorem C2_record_count (backend new : IndexedTable) (recs : List Record)
    (h : compare_attendance backend new = Except.ok recs) :
    recs.length =
      new.rows.length * (new.cols.filter (fun c => c ≠ L "Employee Name")).length :=
  compareRows_length backend new new.rows recs h

/-- Witness for C2 amended at a concrete run. -/
theorem C2_record_count_witness :
    compare_attendance exBackendEmpty exSubInert =
      Except.ok ((compare_attendance exBackendEmpty exSubInert).toOption.getD []) ∧
    ((compare_attendance exBackendEmpty exSubInert).toOption.getD []).length =
      exSubInert.rows.length *
        (exSubInert.cols.filter (fun c => c ≠ L "Employee Name")).length :=
  ⟨rfl, C2_record_count exBackendEmpty exSubInert _ rfl⟩

/-- C3 counterexample: the record emitted for a key absent from the
backend carries the sentinel `Data Not Found in Qandle`, not the claimed
`Employee not found in backend`. -/
theorem C3_counterexample :
    ((compare_attendance exBackendEmpty exSubE2).toOption.bind List.head?).map
        Record.qandle = some (Cell.str (L "Data Not Found in Qandle")) ∧
    L "Data Not Found in Qandle" ≠ L "Employee not found in backend" := by
  exact ⟨by decide, by decide⟩

/-- C3 amended: every record emitted for a submission key absent from the
backend has its mismatch flag set and its reference value equal to the
sentinel `Data Not Found in Qandle`. -/
theorem C3_missing_key_sentinel (backend new : IndexedTable)
    (p : Cell × List Cell) (recs : List Record)
    (hk : p.1 ∉ backend.rows.map Prod.fst)
    (h : rowRecords backend new p = Except.ok recs) :
    ∀ r ∈ recs, r.mismatch = true ∧
      r.qandle = Cell.str (L "Data Not Found in Qandle") := by
  unfold rowRecords at h
  rw [if_neg hk] at h
  injection h with h
  intro r hr
  rw [← h] at hr
  obtain ⟨date, _, hrec⟩ := List.mem_map.mp hr
  rw [← hrec]
  exact ⟨rfl, rfl⟩

/-- Witness for C3 amended at the concrete `E2` run. -/
theorem C3_missing_key_sentinel_witness :
    Cell.str (L "E2") ∉ exBackendEmpty.rows.map Prod.fst ∧
    exRecE2.mismatch = true ∧
    exRecE2.qandle = Cell.str (L "Data Not Found in Qandle") := by
  refine ⟨by decide, ?_⟩
  exact C3_missing_key_sentinel exBackendEmpty exSubE2
    (Cell.str (L "E2"), [Cell.str (L "Bob"), Cell.str (L "P")]) [exRecE2]
    (by decide) rfl exRecE2 (by decide)

/-- C4 counterexample: building the indexed table from a raw table with
two rows sharing identity `E3` succeeds — no error of any kind — and both
rows are retained with their distinct values. -/
theorem C4_counterexample :
    (process_dataframe exRawDupE3).map (fun it => it.rows.map Prod.fst) =
      some [Cell.str (L "E3"), Cell.str (L "E3")] ∧
    (process_dataframe exRawDupE3).map (fun it => it.rows.map Prod.snd) =
      some [[Cell.str (L "A"), Cell.str (L "P")],
            [Cell.str (L "B"), Cell.str (L "Q")]] := by
  exact ⟨by decide, by decide⟩

/-- C4 amended: indexing never rejects duplicate identity values — whether
`process_dataframe` succeeds depends only on the columns, and on success
every input row is kept, with the first cell of each row as its key. -/
theorem C4_duplicates_kept (t : RawTable) (it : IndexedTable)
    (h : process_dataframe t = some it) :
    it.rows.map Prod.fst = t.rows.map (fun r => r.headD Cell.null) ∧
    it.rows.length = t.rows.length ∧
    (process_dataframe t).isSome = (normalizeColumns t.cols).isSome := by
  obtain ⟨allCols, hn, _, hrows⟩ := process_dataframe_some t it h
  refine ⟨?_, ?_, ?_⟩
  · rw [hrows, List.map_map]
    rfl
  · rw [hrows, List.length_map]
  · simp [process_dataframe, hn]

/-- Witness for C4 amended at the duplicate-`E3` table. -/
theorem C4_duplicates_kept_witness :
    process_dataframe exRawDupE3 =
      some ((process_dataframe exRawDupE3).getD { cols := [], rows := [] }) ∧
    ((process_dataframe exRawDupE3).getD { cols := [], rows := [] }).rows.length =
      exRawDupE3.rows.length :=
  ⟨by decide, (C4_duplicates_kept exRawDupE3 _ (by decide)).2.1⟩

theorem compareRows_self_no_mismatch (A : IndexedTable)
    (hnd : (A.rows.map Prod.fst).Nodup) (l : List (Cell × List Cell))
    (hl : ∀ p ∈ l, p ∈ A.rows) (rs : List Record)
    (h : compareRows A A l = Except.ok rs) :
    ∀ r ∈ rs, r.mismatch = false := by
  induction l generalizing rs with
  | nil =>
    unfold compareRows at h
    injection h with h
    simp [← h]
  | cons p ps ih =>
    unfold compareRows at h
    cases h1 : rowRecords A A p with
    | error e => rw [h1] at h; exact absurd h (by simp)
    | ok rs1 =>
      rw [h1] at h
      cases h2 : compareRows A A ps with
      | error e => rw [h2] at h; exact absurd h (by simp)
      | ok rest =>
        rw [h2] at h
        injection h with h
        intro r hr
        rw [← h] at hr
        rcases List.mem_append.mp hr with hr1 | hr2
        · have hpA : p ∈ A.rows := hl p (List.mem_cons_self p ps)
          have hk : p.1 ∈ A.rows.map Prod.fst :=
            List.mem_map.mpr ⟨p, hpA, rfl⟩
          unfold rowRecords at h1
          rw [if_pos hk] at h1
          by_cases hn : (L "Employee Name") ∈ A.cols
          · rw [if_pos hn] at h1
            injection h1 with h1
            rw [← h1] at hr1
            obtain ⟨date, hdate, hrec⟩ := List.mem_map.mp hr1
            rw [← hrec]
            apply mismatch_same_value
            have hdcol : date ∈ A.cols := List.mem_of_mem_filter hdate
            have hlook : lookupRow A.rows p.1 = some p.2 :=
              lookupRow_nodup A.rows p.1 p.2 hnd hpA
            unfold refValue
            rw [if_pos hdcol, hlook]
            rfl
          · rw [if_neg hn] at h1
            exact absurd h1 (by simp)
        · exact ih (fun q hq => hl q (List.mem_cons_of_mem p hq)) rest h2 r hr2

/-- C6: reconciling a table with unique identity keys against itself
yields no mismatched record. -/
theorem C6_self_reconcile (A : IndexedTable) (recs : List Record)
    (hnd : (A.rows.map Prod.fst).Nodup)
    (h : compare_attendance A A = Except.ok recs) :
    ∀ r ∈ recs, r.mismatch = false :=
  compareRows_self_no_mismatch A hnd A.rows (fun _ hp => hp) recs h

/-- Witness for C6 at a concrete two-employee table. -/
theorem C6_self_reconcile_witness :
    (exSelf.rows.map Prod.fst).Nodup ∧ exSelfRec1.mismatch = false := by
  refine ⟨by decide, ?_⟩
  refine C6_self_reconcile exSelf
    ((compare_attendance exSelf exSelf).toOption.getD []) (by decide) rfl
    exSelfRec1 ?_
  decide

/-- C7 counterexample: a numeric identity cell survives indexing as a
number — `process_dataframe` never converts the index values to strings,
because `astype(str)` runs after `set_index`. -/
theorem C7_counterexample :
    (process_dataframe exRawNumKey).map (fun it => it.rows.map Prod.fst) =
      some [Cell.num 7] ∧
    isStrCell (Cell.num 7) = false := by
  exact ⟨by decide, by decide⟩

/-- C7 amended: after `process_dataframe`, every stored cell under a
column other than `Employee Name` is a string cell, missing cells having
become the literal string `nan` — but the identity values are the raw
first cells of each row, passed through without string conversion. -/
theorem C7_cells_stringified (t : RawTable) (it : IndexedTable)
    (h : process_dataframe t = some it) :
    (∀ p ∈ it.rows, ∀ j, j < p.2.length →
       it.cols.getD j [] ≠ L "Employee Name" →
       isStrCell (p.2.getD j Cell.null) = true) ∧
    cellToStr Cell.null = Cell.str (L "nan") ∧
    it.rows.map Prod.fst = t.rows.map (fun r => r.headD Cell.null) := by
  obtain ⟨allCols, hn, hcols, hrows⟩ := process_dataframe_some t it h
  refine ⟨?_, rfl, ?_⟩
  · intro p hp j hj hcol
    rw [hrows] at hp
    obtain ⟨r, _, hpr⟩ := List.mem_map.mp hp
    rw [← hpr] at hj ⊢
    simp only [stringifyRow] at hj ⊢
    have hjz : j < (List.zipWith
        (fun c v => if c = L "Employee Name" then v else cellToStr v)
        allCols.tail r.tail).length := hj
    have hjc : j < allCols.tail.length := by
      rw [List.length_zipWith] at hjz
      omega
    have hjr : j < r.tail.length := by
      rw [List.length_zipWith] at hjz
      omega
    rw [List.getD_eq_getElem _ _ hjz]
    rw [List.getElem_zipWith]
    have hcol2 : allCols.tail[j] ≠ L "Employee Name" := by
      rw [hcols] at hcol
      rw [List.getD_eq_getElem _ _ hjc] at hcol
      exact hcol
    rw [if_neg hcol2]
    exact isStrCell_cellToStr _
  · rw [hrows, List.map_map]
    rfl

/-- Witness for C7 amended: the date cell of the numeric-key table is a
string cell after processing. -/
theorem C7_cells_stringified_witness :
    process_dataframe exRawNumKey = some exNumKeyIT ∧
    isStrCell (((Cell.num 7 : Cell),
        [Cell.str (L "Bob"), Cell.str (L "P")]).2.getD 1 Cell.null) = true := by
  refine ⟨by decide, ?_⟩
  exact (C7_cells_stringified exRawNumKey exNumKeyIT (by decide)).1
    (Cell.num 7, [Cell.str (L "Bob"), Cell.str (L "P")]) (by decide) 1
    (by decide) (by decide)

theorem compareRows_ok_of_name (backend new : IndexedTable)
    (hn : (L "Employee Name") ∈ new.cols) (l : List (Cell × List Cell)) :
    (compareRows backend new l).toOption.isSome = true := by
  induction l with
  | nil => rfl
  | cons p ps ih =>
    unfold compareRows
    have h1 : ∃ rs1, rowRecords backend new p = Except.ok rs1 := by
      unfold rowRecords
      by_cases hk : p.1 ∈ backend.rows.map Prod.fst
      · rw [if_pos hk, if_pos hn]
        exact ⟨_, rfl⟩
      · rw [if_neg hk]
        exact ⟨_, rfl⟩
    obtain ⟨rs1, hrs1⟩ := h1
    rw [hrs1]
    cases h2 : compareRows backend new ps with
    | error e => rw [h2] at ih; exact absurd ih (by simp [Except.toOption])
    | ok rest => simp [Except.toOption]

theorem compareRows_ok_iff_no_name (backend new : IndexedTable)
    (hn : (L "Employee Name") ∉ new.cols) (l : List (Cell × List Cell)) :
    (compareRows backend new l).toOption.isSome = true ↔
      ∀ k ∈ l.map Prod.fst, k ∉ backend.rows.map Prod.fst := by
  induction l with
  | nil => simp [compareRows, Except.toOption]
  | cons p ps ih =>
    unfold compareRows
    by_cases hk : p.1 ∈ backend.rows.map Prod.fst
    · have h1 : rowRecords backend new p = Except.error "KeyError" := by
        unfold rowRecords
        rw [if_pos hk, if_neg hn]
      rw [h1]
      constructor
      · intro habs
        simp [Except.toOption] at habs
      · intro hc
        exact absurd hk (hc p.1
          (List.mem_map.mpr ⟨p, List.mem_cons_self p ps, rfl⟩))
    · have h1 : ∃ rs1, rowRecords backend new p = Except.ok rs1 := by
        unfold rowRecords
        rw [if_neg hk]
        exact ⟨_, rfl⟩
      obtain ⟨rs1, hrs1⟩ := h1
      rw [hrs1]
      cases h2 : compareRows backend new ps with
      | error e =>
        rw [h2] at ih
        constructor
        · intro habs
          simp [Except.toOption] at habs
        · intro hc
          have : False := by
            rw [iff_true_right ?_] at ih
            · simp [Except.toOption] at ih
            · intro k hkl
              exact hc k (by rw [List.map_cons]; exact List.mem_cons_of_mem _ hkl)
          exact this.elim
      | ok rest =>
        rw [h2] at ih
        have ihr := ih.mp rfl
        constructor
        · intro _ k hkl
          rw [List.map_cons] at hkl
          rcases List.mem_cons.mp hkl with hkp | hkps
          · rw [hkp]; exact hk
          · exact ihr k hkps
        · intro _
          rfl

/-- C8 counterexample: the engine completes without any error although
the reference table lacks its `Employee Name` column. -/
theorem C8_counterexample :
    (compare_attendance exBackendNoName exSubE1).toOption.isSome = true ∧
    (L "Employee Name") ∉ exBackendNoName.cols := by
  exact ⟨rfl, by decide⟩

/-- C8 amended: data-shape mismatches never raise; the only failure is a
`KeyError` when the submission lacks its `Employee Name` column and some
submission key is found in the reference. The reference's own columns are
irrelevant to failure: with the name column present in the submission the
run always completes, and without it the run completes exactly when no
submission key occurs in the reference. -/
theorem C8_failure_condition (backend new : IndexedTable) :
    ((L "Employee Name") ∈ new.cols →
      (compare_attendance backend new).toOption.isSome = true) ∧
    ((L "Employee Name") ∉ new.cols →
      ((compare_attendance backend new).toOption.isSome = true ↔
        ∀ k ∈ new.rows.map Prod.fst, k ∉ backend.rows.map Prod.fst)) :=
  ⟨fun hn => compareRows_ok_of_name backend new hn new.rows,
   fun hn => compareRows_ok_iff_no_name backend new hn new.rows⟩

/-- Witness for C8 amended at the name-lacking reference run. -/
theorem C8_failure_condition_witness :
    (L "Employee Name") ∈ exSubE1.cols ∧
    (compare_attendance exBackendNoName exSubE1).toOption.isSome = true :=
  ⟨by decide, (C8_failure_condition exBackendNoName exSubE1).1 (by decide)⟩

/-! ### Character and parser lemmas for the normalizer claims -/

theorem digitChar_mem (n : Nat) : digitChar n ∈ digitChars := by
  unfold digitChar
  split <;> decide

theorem lowerChar_digitChar (n : Nat) : lowerChar (digitChar n) = digitChar n := by
  unfold digitChar
  split <;> decide

theorem mem_pad2 (c : Char) (n : Nat) (h : c ∈ pad2 n) : c ∈ digitChars := by
  simp [pad2] at h
  rcases h with h | h <;> (rw [h]; exact digitChar_mem _)

theorem mem_pad4 (c : Char) (n : Nat) (h : c ∈ pad4 n) : c ∈ digitChars := by
  simp [pad4] at h
  rcases h with h | h | h | h <;> (rw [h]; exact digitChar_mem _)

theorem lowerCL_pad2 (n : Nat) : lowerCL (pad2 n) = pad2 n := by
  simp [lowerCL, pad2, lowerChar_digitChar]

theorem lowerCL_pad4 (n : Nat) : lowerCL (pad4 n) = pad4 n := by
  simp [lowerCL, pad4, lowerChar_digitChar]

theorem lowerCL_append (a b : List Char) : lowerCL (a ++ b) = lowerCL a ++ lowerCL b := by
  simp [lowerCL]

theorem hasPrefixCL_subset (p l : List Char) (h : hasPrefixCL p l = true) :
    ∀ c ∈ p, c ∈ l := by
  induction p generalizing l with
  | nil => intro c hc; simp at hc
  | cons x xs ih =>
    cases l with
    | nil => simp [hasPrefixCL] at h
    | cons y ys =>
      simp only [hasPrefixCL, Bool.and_eq_true, decide_eq_true_eq] at h
      intro c hc
      rcases List.mem_cons.mp hc with hcx | hcxs
      · rw [hcx, h.1]; exact List.mem_cons_self _ _
      · exact List.mem_cons_of_mem _ (ih ys h.2 c hcxs)

theorem containsSub_subset (hay pat : List Char) (h : containsSub hay pat = true) :
    ∀ c ∈ pat, c ∈ hay := by
  induction hay with
  | nil =>
    unfold containsSub at h
    simp only [Bool.or_false] at h
    exact hasPrefixCL_subset pat [] h
  | cons y ys ih =>
    unfold containsSub at h
    rcases Bool.or_eq_true_iff.mp h with h1 | h2
    · exact hasPrefixCL_subset pat (y :: ys) h1
    · intro c hc
      exact List.mem_cons_of_mem _ (ih h2 c hc)

theorem containsSub_eq_false (hay pat : List Char) (x : Char)
    (hx : x ∈ pat) (hnx : x ∉ hay) : containsSub hay pat = false := by
  cases h : containsSub hay pat
  · rfl
  · exact absurd (containsSub_subset hay pat h x hx) hnx

theorem splitDash_cons (c : Char) (cs : List Char) :
    splitDash (c :: cs) =
      if c = '-' then [] :: splitDash cs
      else
        match splitDash cs with
        | [] => [[c]]
        | p :: ps => (c :: p) :: ps := rfl

theorem splitDash_append (xs ys : List Char) (hxs : ∀ c ∈ xs, c ≠ '-') :
    splitDash (xs ++ '-' :: ys) = xs :: splitDash ys := by
  induction xs with
  | nil => simp [splitDash]
  | cons c cs ih =>
    have hc : c ≠ '-' := hxs c (List.mem_cons_self c cs)
    have ih2 := ih (fun x hx => hxs x (List.mem_cons_of_mem c hx))
    rw [List.cons_append, splitDash_cons, if_neg hc, ih2]

theorem splitDash_noDash (xs : List Char) (hxs : ∀ c ∈ xs, c ≠ '-') :
    splitDash xs = [xs] := by
  induction xs with
  | nil => rfl
  | cons c cs ih =>
    have hc : c ≠ '-' := hxs c (List.mem_cons_self c cs)
    have ih2 := ih (fun x hx => hxs x (List.mem_cons_of_mem c hx))
    rw [splitDash_cons, if_neg hc, ih2]

theorem noDash_pad2 (n : Nat) : ∀ c ∈ pad2 n, c ≠ '-' := by
  intro c hc
  have := mem_pad2 c n hc
  intro hd
  rw [hd] at this
  exact absurd this (by decide)

theorem noDash_pad4 (n : Nat) : ∀ c ∈ pad4 n, c ≠ '-' := by
  intro c hc
  have := mem_pad4 c n hc
  intro hd
  rw [hd] at this
  exact absurd this (by decide)

theorem noDash_monAbbrev (m : Nat) : ∀ c ∈ monAbbrev m, c ≠ '-' := by
  unfold monAbbrev
  split <;> decide

theorem monLower_mem13 (m : Nat) :
    lowerCL (monAbbrev m) ∈
      ([L "jan", L "feb", L "mar", L "apr", L "may", L "jun", L "jul",
        L "aug", L "sep", L "oct", L "nov", L "dec", []] : List (List Char)) := by
  unfold monAbbrev
  split <;> decide

theorem splitDash_fmtISO (d : Date) :
    splitDash (fmtISO d) = [pad4 d.year, pad2 d.month, pad2 d.day] := by
  have h1 : fmtISO d = pad4 d.year ++ '-' :: (pad2 d.month ++ '-' :: pad2 d.day) := by
    simp [fmtISO, L, List.append_assoc]
  rw [h1, splitDash_append _ _ (noDash_pad4 d.year),
    splitDash_append _ _ (noDash_pad2 d.month),
    splitDash_noDash _ (noDash_pad2 d.day)]

theorem splitDash_fmtStatus (d : Date) :
    splitDash (fmtStatus d) =
      [L "Status (" ++ pad2 d.day, monAbbrev d.month, pad2 d.year ++ L ")"] := by
  have h1 : fmtStatus d =
      (L "Status (" ++ pad2 d.day) ++ '-' ::
        (monAbbrev d.month ++ '-' :: (pad2 d.year ++ L ")")) := by
    simp [fmtStatus, fmtDBY, L, List.append_assoc]
  have hfix1 : ∀ c ∈ L "Status (", c ≠ '-' := by decide
  have hfix2 : ∀ c ∈ L ")", c ≠ '-' := by decide
  have hx1 : ∀ c ∈ L "Status (" ++ pad2 d.day, c ≠ '-' := by
    intro c hc
    rcases List.mem_append.mp hc with h | h
    · exact hfix1 c h
    · exact noDash_pad2 d.day c h
  rw [h1, splitDash_append _ _ hx1,
    splitDash_append _ _ (noDash_monAbbrev d.month),
    splitDash_noDash _ ?_]
  intro c hc
  rcases List.mem_append.mp hc with h | h
  · exact noDash_pad2 d.year c h
  · exact hfix2 c h

theorem allDigits_append (a b : List Char) :
    allDigits (a ++ b) = (allDigits a && allDigits b) := by
  simp [allDigits, List.all_append]

theorem allDigits_statusPart (l : List Char) :
    allDigits (L "Status (" ++ l) = false := by
  rw [allDigits_append]
  have h : allDigits (L "Status (") = false := by decide
  rw [h, Bool.false_and]

theorem parseDMY_fmtISO (d : Date) : parseDMY (fmtISO d) = none := by
  unfold parseDMY
  rw [splitDash_fmtISO]
  have hlen : (pad4 d.year).length = 4 := rfl
  simp [hlen]

theorem parseDBY_fmtISO (d : Date) : parseDBY (fmtISO d) = none := by
  unfold parseDBY
  rw [splitDash_fmtISO]
  have hlen : (pad4 d.year).length = 4 := rfl
  simp [hlen]

theorem parseDMY_fmtStatus (d : Date) : parseDMY (fmtStatus d) = none := by
  unfold parseDMY
  rw [splitDash_fmtStatus]
  simp [allDigits_statusPart]

theorem parseDBY_fmtStatus (d : Date) : parseDBY (fmtStatus d) = none := by
  unfold parseDBY
  rw [splitDash_fmtStatus]
  simp [allDigits_statusPart]

theorem mem_fmtISO (c : Char) (d : Date) (h : c ∈ fmtISO d) :
    c ∈ digitChars ∨ c = '-' := by
  unfold fmtISO at h
  have hdash : L "-" = ['-'] := rfl
  rcases List.mem_append.mp h with h1 | h1
  · rcases List.mem_append.mp h1 with h2 | h2
    · rcases List.mem_append.mp h2 with h3 | h3
      · rcases List.mem_append.mp h3 with h4 | h4
        · exact Or.inl (mem_pad4 c d.year h4)
        · right; rw [hdash] at h4; simpa using h4
      · exact Or.inl (mem_pad2 c d.month h3)
    · right; rw [hdash] at h2; simpa using h2
  · exact Or.inl (mem_pad2 c d.day h1)

theorem lowerChar_digit_mem : ∀ c ∈ digitChars, lowerChar c = c := by decide

theorem lowerCL_fmtISO (d : Date) : lowerCL (fmtISO d) = fmtISO d := by
  unfold lowerCL
  calc (fmtISO d).map lowerChar = (fmtISO d).map id :=
        List.map_congr_left (fun c hc => by
          rcases mem_fmtISO c d hc with h1 | h1
          · exact lowerChar_digit_mem c h1
          · rw [h1]; rfl)
    _ = fmtISO d := List.map_id _

theorem noCode_fmtISO (d : Date) :
    containsSub (lowerCL (fmtISO d)) (L "code") = false := by
  apply containsSub_eq_false _ _ 'c' (by decide)
  rw [lowerCL_fmtISO]
  intro hmem
  rcases mem_fmtISO 'c' d hmem with h | h
  · exact absurd h (by decide)
  · exact absurd h (by decide)

theorem noName_fmtISO (d : Date) :
    containsSub (lowerCL (fmtISO d)) (L "name") = false := by
  apply containsSub_eq_false _ _ 'n' (by decide)
  rw [lowerCL_fmtISO]
  intro hmem
  rcases mem_fmtISO 'n' d hmem with h | h
  · exact absurd h (by decide)
  · exact absurd h (by decide)

theorem mem_fmtStatusLower (c : Char) (d : Date) (h : c ∈ lowerCL (fmtStatus d)) :
    c ∈ L "status (" ∨ c ∈ digitChars ∨ c = '-' ∨ c = ')' ∨
      c ∈ lowerCL (monAbbrev d.month) := by
  unfold fmtStatus fmtDBY at h
  simp only [lowerCL_append] at h
  have hfix1 : lowerCL (L "Status (") = L "status (" := by decide
  have hfix2 : lowerCL (L ")") = L ")" := by decide
  have hdashlow : lowerCL (L "-") = ['-'] := by decide
  rw [hfix1, hfix2, hdashlow, lowerCL_pad2, lowerCL_pad2] at h
  rw [show (L ")") = [')'] from rfl] at h
  rcases List.mem_append.mp h with h1 | h1
  · rcases List.mem_append.mp h1 with h2 | h2
    · exact Or.inl h2
    · rcases List.mem_append.mp h2 with h3 | h3
      · rcases List.mem_append.mp h3 with h4 | h4
        · rcases List.mem_append.mp h4 with h5 | h5
          · rcases List.mem_append.mp h5 with h6 | h6
            · exact Or.inr (Or.inl (mem_pad2 c d.day h6))
            · exact Or.inr (Or.inr (Or.inl (by simpa using h6)))
          · exact Or.inr (Or.inr (Or.inr (Or.inr h5)))
        · exact Or.inr (Or.inr (Or.inl (by simpa using h4)))
      · exact Or.inr (Or.inl (mem_pad2 c d.year h3))
  · exact Or.inr (Or.inr (Or.inr (Or.inl (by simpa using h1))))

theorem noCode_fmtStatus (d : Date) :
    containsSub (lowerCL (fmtStatus d)) (L "code") = false := by
  cases h : containsSub (lowerCL (fmtStatus d)) (L "code")
  · rfl
  · have hsub := containsSub_subset _ _ h
    have hc0 := hsub 'c' (by decide)
    have ho0 := hsub 'o' (by decide)
    have hd0 := hsub 'd' (by decide)
    have hc2 : 'c' ∈ lowerCL (monAbbrev d.month) := by
      rcases mem_fmtStatusLower 'c' d hc0 with h1 | h1 | h1 | h1 | h1 <;>
        first
          | exact absurd h1 (by decide)
          | exact h1
    have ho2 : 'o' ∈ lowerCL (monAbbrev d.month) := by
      rcases mem_fmtStatusLower 'o' d ho0 with h1 | h1 | h1 | h1 | h1 <;>
        first
          | exact absurd h1 (by decide)
          | exact h1
    have hd2 : 'd' ∈ lowerCL (monAbbrev d.month) := by
      rcases mem_fmtStatusLower 'd' d hd0 with h1 | h1 | h1 | h1 | h1 <;>
        first
          | exact absurd h1 (by decide)
          | exact h1
    have h13 := monLower_mem13 d.month
    simp only [List.mem_cons, List.not_mem_nil, or_false] at h13
    rcases h13 with hm | hm | hm | hm | hm | hm | hm | hm | hm | hm | hm | hm | hm <;>
      rw [hm] at hc2 ho2 hd2 <;>
      first
        | exact absurd hc2 (by decide)
        | exact absurd ho2 (by decide)
        | exact absurd hd2 (by decide)

theorem noName_fmtStatus (d : Date) :
    containsSub (lowerCL (fmtStatus d)) (L "name") = false := by
  cases h : containsSub (lowerCL (fmtStatus d)) (L "name")
  · rfl
  · have hsub := containsSub_subset _ _ h
    have hn0 := hsub 'n' (by decide)
    have hm0 := hsub 'm' (by decide)
    have hn2 : 'n' ∈ lowerCL (monAbbrev d.month) := by
      rcases mem_fmtStatusLower 'n' d hn0 with h1 | h1 | h1 | h1 | h1 <;>
        first
          | exact absurd h1 (by decide)
          | exact h1
    have hm2 : 'm' ∈ lowerCL (monAbbrev d.month) := by
      rcases mem_fmtStatusLower 'm' d hm0 with h1 | h1 | h1 | h1 | h1 <;>
        first
          | exact absurd h1 (by decide)
          | exact h1
    have h13 := monLower_mem13 d.month
    simp only [List.mem_cons, List.not_mem_nil, or_false] at h13
    rcases h13 with hm | hm | hm | hm | hm | hm | hm | hm | hm | hm | hm | hm | hm <;>
      rw [hm] at hn2 hm2 <;>
      first
        | exact absurd hn2 (by decide)
        | exact absurd hm2 (by decide)

theorem hasPrefixCL_cons_ne (p x : Char) (ps t : List Char) (h : p ≠ x) :
    hasPrefixCL (p :: ps) (x :: t) = false := by
  simp [hasPrefixCL, h]

theorem hasPrefixStatus_fmtISO (d : Date) :
    hasPrefixCL (L "Status") (fmtISO d) = false := by
  have ht : fmtISO d = digitChar (d.year / 1000) ::
      ([digitChar (d.year / 100), digitChar (d.year / 10), digitChar d.year] ++
        L "-" ++ pad2 d.month ++ L "-" ++ pad2 d.day) := by
    simp [fmtISO, pad4, List.cons_append, List.append_assoc]
  rw [ht, show L "Status" = 'S' :: L "tatus" from rfl]
  apply hasPrefixCL_cons_ne
  intro hcontra
  have hdm := digitChar_mem (d.year / 1000)
  rw [← hcontra] at hdm
  exact absurd hdm (by decide)

theorem statusRename_fmtISO (d : Date) :
    statusRenameLabel (fmtISO d) = fmtISO d := by
  simp [statusRenameLabel, hasPrefixStatus_fmtISO]

theorem statusRename_cases (l : Label) :
    statusRenameLabel l = l ∨ ∃ d2, statusRenameLabel l = fmtISO d2 := by
  unfold statusRenameLabel
  split
  · split
    · split
      · exact Or.inr ⟨_, rfl⟩
      · exact Or.inl rfl
    · exact Or.inl rfl
  · exact Or.inl rfl

theorem statusRename_idem (l : Label) :
    statusRenameLabel (statusRenameLabel l) = statusRenameLabel l := by
  rcases statusRename_cases l with h | ⟨d2, h⟩
  · rw [h]; exact h
  · rw [h, statusRename_fmtISO]

theorem std_fmtISO (d : Date) :
    standardizeLabel (RawLabel.str (fmtISO d)) = RawLabel.str (fmtISO d) := by
  simp [standardizeLabel, noCode_fmtISO, noName_fmtISO, parseDMY_fmtISO,
    parseDBY_fmtISO]

theorem std_fmtStatus (d : Date) :
    standardizeLabel (RawLabel.str (fmtStatus d)) = RawLabel.str (fmtStatus d) := by
  simp [standardizeLabel, noCode_fmtStatus, noName_fmtStatus, parseDMY_fmtStatus,
    parseDBY_fmtStatus]

theorem stdECode : standardizeLabel (RawLabel.str (L "Employee Code")) =
    RawLabel.str (L "Employee Code") := by decide

theorem stdEName : standardizeLabel (RawLabel.str (L "Employee Name")) =
    RawLabel.str (L "Employee Name") := by decide

theorem srECode : statusRenameLabel (L "Employee Code") = L "Employee Code" := by
  decide

theorem srEName : statusRenameLabel (L "Employee Name") = L "Employee Name" := by
  decide

theorem std_strOf_fix (rl : RawLabel) (hno : (standardizeLabel rl).isOther = false) :
    standardizeLabel (RawLabel.str (standardizeLabel rl).strOf) =
      RawLabel.str (standardizeLabel rl).strOf := by
  cases rl with
  | other t => simp [standardizeLabel, RawLabel.isOther] at hno
  | date d => exact std_fmtStatus d
  | str s =>
    by_cases hc : containsSub (lowerCL s) (L "code") = true
    · have h1 : standardizeLabel (RawLabel.str s) = RawLabel.str (L "Employee Code") := by
        simp [standardizeLabel, hc]
      rw [h1]
      exact stdECode
    · by_cases hn : containsSub (lowerCL s) (L "name") = true
      · have h1 : standardizeLabel (RawLabel.str s) =
            RawLabel.str (L "Employee Name") := by
          simp [standardizeLabel, hc, hn]
        rw [h1]
        exact stdEName
      · cases hdm : parseDMY s with
        | some d =>
          have h1 : standardizeLabel (RawLabel.str s) = RawLabel.str (fmtStatus d) := by
            simp [standardizeLabel, hc, hn, hdm]
          rw [h1]
          exact std_fmtStatus d
        | none =>
          cases hdb : parseDBY s with
          | some d =>
            have h1 : standardizeLabel (RawLabel.str s) =
                RawLabel.str (fmtStatus d) := by
              simp [standardizeLabel, hc, hn, hdm, hdb]
            rw [h1]
            exact std_fmtStatus d
          | none =>
            have h1 : standardizeLabel (RawLabel.str s) = RawLabel.str s := by
              simp [standardizeLabel, hc, hn, hdm, hdb]
            rw [h1]
            exact h1

theorem elemFix (rl : RawLabel) (hno : (standardizeLabel rl).isOther = false) :
    standardizeLabel (RawLabel.str (statusRenameLabel (standardizeLabel rl).strOf)) =
      RawLabel.str (statusRenameLabel (standardizeLabel rl).strOf) := by
  rcases statusRename_cases (standardizeLabel rl).strOf with h | ⟨d2, h⟩
  · rw [h]
    exact std_strOf_fix rl hno
  · rw [h]
    exact std_fmtISO d2

theorem forceFirstTwo_cons2 (x y : RawLabel) (t : List RawLabel) :
    forceFirstTwo (x :: y :: t) =
      RawLabel.str (L "Employee Code") :: RawLabel.str (L "Employee Name") :: t := rfl

theorem strOf_str (s : Label) : (RawLabel.str s).strOf = s := rfl

theorem normalizeColumns_round2 (T : List RawLabel)
    (hT : ∀ x ∈ T, (standardizeLabel x).isOther = false) :
    normalizeColumns (List.map RawLabel.str
      ((L "Employee Code") :: (L "Employee Name") ::
        T.map (fun x => statusRenameLabel (standardizeLabel x).strOf))) =
    some ((L "Employee Code") :: (L "Employee Name") ::
      T.map (fun x => statusRenameLabel (standardizeLabel x).strOf)) := by
  simp only [List.map_cons, List.map_map, normalizeColumns]
  rw [if_neg (by simp)]
  rw [stdECode, stdEName, forceFirstTwo_cons2]
  have hanyF : (T.map (standardizeLabel ∘ RawLabel.str ∘
      (fun x => statusRenameLabel (standardizeLabel x).strOf))).any
        RawLabel.isOther = false := by
    cases hA : (T.map (standardizeLabel ∘ RawLabel.str ∘
        (fun x => statusRenameLabel (standardizeLabel x).strOf))).any RawLabel.isOther
    · rfl
    · obtain ⟨y, hy, hiso⟩ := List.any_eq_true.mp hA
      obtain ⟨x, hx, rfl⟩ := List.mem_map.mp hy
      have hfix := elemFix x (hT x hx)
      simp only [Function.comp] at hiso
      rw [hfix] at hiso
      simp [RawLabel.isOther] at hiso
  have hanyAll : ((RawLabel.str (L "Employee Code") :: RawLabel.str (L "Employee Name") ::
      T.map (standardizeLabel ∘ RawLabel.str ∘
        (fun x => statusRenameLabel (standardizeLabel x).strOf))).any
          RawLabel.isOther) = false := by
    simp only [List.any_cons, hanyF]
    rfl
  rw [hanyAll]
  simp only [Bool.false_eq_true, if_false]
  simp only [List.map_cons, List.map_map, strOf_str]
  rw [srECode, srEName]
  have htail := List.map_congr_left
    (l := T)
    (f := (fun rl => statusRenameLabel rl.strOf) ∘ standardizeLabel ∘ RawLabel.str ∘
      (fun x => statusRenameLabel (standardizeLabel x).strOf))
    (g := fun x => statusRenameLabel (standardizeLabel x).strOf)
    (fun x hx => by
      have hfix := elemFix x (hT x hx)
      simp only [Function.comp]
      rw [hfix]
      simp only [strOf_str]
      exact statusRename_idem _)
  rw [htail]

/-- C5: the column normalization of the pipeline (standardize each label,
overwrite the first two positions, rename `Status` columns to canonical
dates) is idempotent on column names: re-normalizing the columns it
produced yields the same columns again. -/
theorem C5_normalize_idempotent (ls : List RawLabel) (out : List Label)
    (h : normalizeColumns ls = some out) :
    normalizeColumns (out.map RawLabel.str) = some out := by
  unfold normalizeColumns at h
  by_cases hlen : ls.length < 2
  · rw [if_pos hlen] at h
    exact absurd h (by simp)
  rw [if_neg hlen] at h
  cases ls with
  | nil => exact absurd (by simp) hlen
  | cons a t =>
    cases t with
    | nil => exact absurd (by simp) hlen
    | cons b rest =>
      simp only [List.map_cons] at h
      rw [forceFirstTwo_cons2] at h
      have hany : ((RawLabel.str (L "Employee Code") ::
          RawLabel.str (L "Employee Name") ::
          rest.map standardizeLabel).any RawLabel.isOther) =
          (rest.map standardizeLabel).any RawLabel.isOther := by
        simp only [List.any_cons]
        rfl
      rw [hany] at h
      split at h
      · exact absurd h (by simp)
      · rename_i hoth
        have hstd : ∀ x ∈ rest, (standardizeLabel x).isOther = false := by
          intro x hx
          cases hsx : (standardizeLabel x).isOther
          · rfl
          · have hA : (rest.map standardizeLabel).any RawLabel.isOther = true :=
              List.any_eq_true.mpr
                ⟨standardizeLabel x, List.mem_map.mpr ⟨x, hx, rfl⟩, hsx⟩
            exact absurd hA hoth
        simp only [List.map_cons, List.map_map, strOf_str] at h
        rw [srECode, srEName] at h
        injection h with h
        rw [← h]
        exact normalizeColumns_round2 rest hstd

/-- Witness for C5 at a concrete header list. -/
theorem C5_normalize_idempotent_witness :
    normalizeColumns exLsLateCode =
      some [L "Employee Code", L "Employee Name", L "Employee Code", L "2024-01-05"] ∧
    normalizeColumns
      (([L "Employee Code", L "Employee Name", L "Employee Code",
         L "2024-01-05"]).map RawLabel.str) =
      some [L "Employee Code", L "Employee Name", L "Employee Code", L "2024-01-05"] :=
  ⟨by decide, C5_normalize_idempotent exLsLateCode _ (by decide)⟩

theorem normalizeColumns_shape (a b : RawLabel) (rest : List RawLabel)
    (out : List Label) (h : normalizeColumns (a :: b :: rest) = some out) :
    out = (L "Employee Code") :: (L "Employee Name") ::
      rest.map ((fun rl => statusRenameLabel rl.strOf) ∘ standardizeLabel) := by
  unfold normalizeColumns at h
  rw [if_neg (by simp)] at h
  simp only [List.map_cons] at h
  rw [forceFirstTwo_cons2] at h
  have hany : ((RawLabel.str (L "Employee Code") ::
      RawLabel.str (L "Employee Name") ::
      rest.map standardizeLabel).any RawLabel.isOther) =
      (rest.map standardizeLabel).any RawLabel.isOther := by
    simp only [List.any_cons]
    rfl
  rw [hany] at h
  split at h
  · exact absurd h (by simp)
  · simp only [List.map_cons, List.map_map, strOf_str] at h
    rw [srECode, srEName] at h
    injection h with h
    exact h.symm

theorem getD_map_of_lt {α β : Type} (f : α → β) (l : List α) (i : Nat) (d : α)
    (dd : β) (h : i < l.length) : (l.map f).getD i dd = f (l.getD i d) := by
  rw [List.getD_eq_getElem _ _ (by simpa using h), List.getD_eq_getElem _ _ h,
    List.getElem_map]

/-- C10: whenever normalization succeeds (so the table has at least two
columns), the first two output labels are unconditionally `Employee Code`
and `Employee Name`, the header length is preserved, and a `code`-bearing
header at any later position is also renamed `Employee Code`, producing a
duplicate canonical label — the positional overwrite is always applied. -/
theorem C10_positional_overwrite (ls : List RawLabel) (out : List Label)
    (h : normalizeColumns ls = some out) :
    out.getD 0 [] = L "Employee Code" ∧
    out.getD 1 [] = L "Employee Name" ∧
    out.length = ls.length ∧
    (∀ i, 2 ≤ i → ∀ s : Label,
      ls.getD i (RawLabel.other 0) = RawLabel.str s →
      containsSub (lowerCL s) (L "code") = true →
      out.getD i [] = L "Employee Code") := by
  cases ls with
  | nil =>
    unfold normalizeColumns at h
    simp at h
  | cons a t =>
    cases t with
    | nil =>
      unfold normalizeColumns at h
      simp at h
    | cons b rest =>
      have hshape := normalizeColumns_shape a b rest out h
      subst hshape
      refine ⟨rfl, rfl, by simp, ?_⟩
      intro i h2 s hsi hcontains
      obtain ⟨n, rfl⟩ : ∃ n, i = n + 2 := ⟨i - 2, by omega⟩
      rw [show n + 2 = (n + 1) + 1 from rfl] at hsi ⊢
      rw [List.getD_cons_succ, List.getD_cons_succ] at hsi ⊢
      have hb : n < rest.length := by
        by_contra hnb
        push_neg at hnb
        rw [List.getD_eq_default _ _ hnb] at hsi
        exact absurd hsi (by simp)
      rw [getD_map_of_lt _ rest n (RawLabel.other 0) [] hb, hsi]
      simp only [Function.comp]
      have hstdc : standardizeLabel (RawLabel.str s) =
          RawLabel.str (L "Employee Code") := by
        simp [standardizeLabel, hcontains]
      rw [hstdc]
      simp only [strOf_str]
      exact srECode

/-- Witness for C10 at the header list with a late `code` column. -/
theorem C10_positional_overwrite_witness :
    normalizeColumns exLsLateCode =
      some [L "Employee Code", L "Employee Name", L "Employee Code", L "2024-01-05"] ∧
    ([L "Employee Code", L "Employee Name", L "Employee Code",
      L "2024-01-05"] : List Label).getD 0 [] = L "Employee Code" ∧
    ([L "Employee Code", L "Employee Name", L "Employee Code",
      L "2024-01-05"] : List Label).getD 2 [] = L "Employee Code" := by
  refine ⟨by decide, ?_, ?_⟩
  · exact (C10_positional_overwrite exLsLateCode _ (by decide)).1
  · exact (C10_positional_overwrite exLsLateCode _ (by decide)).2.2.2 2 (by decide)
      (L "Emp Code") (by decide) (by decide)

end AttReco
